import Mathlib

/-!
Shallow embedding of the core state machines of the kira audio engine
(sounds/arrangements, instances, the backend instance collection, cooldowns,
metronomes, sequence instances, cached values and group ancestry), together
with theorems checking the natural-language specification against the code.

Conventions of the embedding:
* every `f64` of the source is modelled as a rational number `ℚ` (exact
  arithmetic; the claims under study are about control flow and algebraic
  structure, not rounding);
* Rust's in-place mutation becomes explicit state passing: a `&mut self`
  method becomes a Lean function returning the new value;
* the identifier types (`InstanceId`, `ParameterId`, `GroupId`, ...) are
  process-unique integers in the source and are modelled as `ℕ`;
* indexed maps (`IndexMap` / the static-capacity containers) are modelled as
  insertion-ordered association lists.
-/

namespace Kira

/-- Linear interpolation, as in `kira/src/util.rs` (`lerp`). -/
def lerp (a b amount : ℚ) : ℚ := a + (b - a) * amount

/-- Truncation of a rational toward zero, used to model Rust's `%` operator on
`f64`, whose remainder takes the sign of the dividend. -/
def ratTrunc (q : ℚ) : ℤ := if 0 ≤ q then ⌊q⌋ else ⌈q⌉

/-- Rust's `%` on `f64` (truncated remainder): `x % y = x - y * trunc (x / y)`.
For `y = 0` the source produces `NaN` (every comparison with it is false);
the model is total and returns `x` in that case, which no claim exercises
with a zero interval on both sides of a comparison in a different way. -/
def fmod (x y : ℚ) : ℚ := x - y * (ratTrunc (x / y) : ℚ)

/-- Identifier of a parameter (`ParameterId` in `kira/src/parameter`). -/
abbrev ParameterId := ℕ

/-- Identifier of an instance (`InstanceId` in `kira/src/instance/mod.rs`);
equality and hashing are on the integer index alone. -/
abbrev InstanceId := ℕ

/-- Identifier of a group (`GroupId` in `kira/src/group/mod.rs`). -/
abbrev GroupId := ℕ

/-- Identifier of a sequence instance (`SequenceInstanceId` in
`kira/src/sequence`). -/
abbrev SequenceInstanceId := ℕ

/-- Identifier of a mixer track, standing in for `TrackIndex`/`TrackId`. -/
abbrev TrackIndex := ℕ

/-- Modelled from the spec: the parameter module (`kira/src/parameter`) is not
among the provided sources.  A `Mapping` is applied to a parameter's raw value
before it is cached (§4.1 of the spec: "looks up the parameter, applies
`mapping.map(raw)`"); only the application of `map` matters to the claims, so
the mapping is modelled by the function it denotes. -/
structure Mapping where
  map : ℚ → ℚ

/-- Easing curves of a tween.  Modelled from the spec (§ data model):
`easing ∈ {Linear, InPowi(i), OutPowi(i), InOutPowi(i)}`. -/
inductive Easing where
  | Linear : Easing
  | InPowi (i : ℕ) : Easing
  | OutPowi (i : ℕ) : Easing
  | InOutPowi (i : ℕ) : Easing

/-- Application of an easing curve to a normalized time. -/
def Easing.apply : Easing → ℚ → ℚ
  | .Linear, t => t
  | .InPowi i, t => t ^ i
  | .OutPowi i, t => 1 - (1 - t) ^ i
  | .InOutPowi i, t => if t < 1 / 2 then (2 * t) ^ i / 2 else 1 - (2 - 2 * t) ^ i / 2

/-- Modelled from the spec: `Tween { duration, easing }` interpolating from a
start value to a target over wall-clock seconds (§ data model). -/
structure Tween where
  duration : ℚ
  easing : Easing

/-- Modelled from the spec: the state of an active tween of a `Parameter`
(§4.1): the interpolation runs from `start` to `target`, with normalized
`progress` advanced by `dt / duration` each frame. -/
structure TweenState where
  tween : Tween
  start : ℚ
  target : ℚ
  progress : ℚ

/-- Modelled from the spec: a `Parameter` (§4.1 and § data model) is a scalar
with a current value and an optional active tween; `kira/src/parameter` is not
among the provided sources. -/
structure Parameter where
  value : ℚ
  tween_state : Option TweenState

/-- Creation of a parameter with no active tween. -/
def Parameter.new (value : ℚ) : Parameter := { value, tween_state := none }

/-- Modelled from the spec (§4.1): `set(target, tween?)` either snaps to
`target` (no tween) or starts an interpolation from the current value. -/
def Parameter.set (p : Parameter) (target : ℚ) (tween : Option Tween) : Parameter :=
  match tween with
  | none => { value := target, tween_state := none }
  | some tw =>
    { value := p.value
      tween_state := some { tween := tw, start := p.value, target, progress := 0 } }

/-- Modelled from the spec (§4.1): per-frame `update(dt)` advances the tween's
normalized progress by `dt / duration`, applies easing, sets
`value = lerp(start, target, eased)`, and on completion reports
`finished = true`. -/
def Parameter.update (p : Parameter) (dt : ℚ) : Parameter × Bool :=
  match p.tween_state with
  | none => (p, false)
  | some ts =>
    let t := ts.progress + dt / ts.tween.duration
    if 1 ≤ t then ({ value := ts.target, tween_state := none }, true)
    else
      ({ value := lerp ts.start ts.target (ts.tween.easing.apply t)
         tween_state := some { ts with progress := t } }, false)

/-- Store of parameters (`Parameters` in `kira/src/parameter`), an indexed map
from parameter ids to parameters, modelled as an association list. -/
structure Parameters where
  parameters : List (ParameterId × Parameter)

/-- Lookup of a parameter by id. -/
def Parameters.get (ps : Parameters) (id : ParameterId) : Option Parameter :=
  (ps.parameters.find? (fun kv => kv.1 == id)).map (fun kv => kv.2)

/-- Counterpart of the `AsValue` trait of `kira/src/value.rs`: the conversion
from a raw `f64` (the `From<f64>` bound) and the random draw
`random_in_range`.  The source draws from an OS thread-local RNG
(`tls_rng()`); the draw is external input to the audio state, and the model
fixes it deterministically to the lower bound (no claim depends on the
distribution of the draw, only on when a draw happens). -/
class AsValue (T : Type) where
  ofQ : ℚ → T
  random_in_range : T → T → T

instance : AsValue ℚ where
  ofQ := id
  random_in_range := fun lo _ => lo

/-- Value enum of `kira/src/value.rs`: a fixed value, the current value of a
parameter (with a mapping), or a random value within a range. -/
inductive Value (T : Type) where
  | Fixed (v : T) : Value T
  | Parameter (id : ParameterId) (mapping : Mapping) : Value T
  | Random (lower upper : T) : Value T

/-- CachedValue of `kira/src/value.rs`: a wrapper around a `Value` that
remembers the last valid raw value. -/
structure CachedValue (T : Type) where
  value : Value T
  last_value : T

/-- Constructor `CachedValue::new` of `kira/src/value.rs`: the cached value
starts out as the fixed value, the supplied default (for a parameter), or a
random draw within the range. -/
def CachedValue.new [AsValue T] (value : Value T) (default_value : T) : CachedValue T :=
  { value
    last_value :=
      match value with
      | .Fixed v => v
      | .Parameter _ _ => default_value
      | .Random lower upper => AsValue.random_in_range lower upper }

/-- Method `CachedValue::set` of `kira/src/value.rs`: replaces the value
setting; only a `Random` value re-rolls the cached raw value. -/
def CachedValue.set [AsValue T] (cv : CachedValue T) (value : Value T) : CachedValue T :=
  match value with
  | .Random lower upper => { value, last_value := AsValue.random_in_range lower upper }
  | _ => { cv with value }

/-- Method `CachedValue::update` of `kira/src/value.rs`: if the value is set
to a parameter and the parameter exists, updates the raw value from the
parameter through the mapping; otherwise leaves the cache untouched. -/
def CachedValue.update [AsValue T] (cv : CachedValue T) (parameters : Parameters) :
    CachedValue T :=
  match cv.value with
  | .Parameter id mapping =>
    match parameters.get id with
    | some parameter => { cv with last_value := AsValue.ofQ (mapping.map parameter.value) }
    | none => cv
  | _ => cv

/-- Pitch of an instance (`kira/src/pitch.rs`, not among the provided
sources).  Modelled from the spec (§4.2), which only uses `pitch.to_factor()`:
the pitch is represented by the playback-rate factor it denotes (semitone
pitches evaluate to `2^(s/12)`, which the source computes before the factor is
used). -/
structure Pitch where
  factor : ℚ

/-- Conversion of a pitch to a playback-rate factor. -/
def Pitch.to_factor (p : Pitch) : ℚ := p.factor

instance : AsValue Pitch where
  ofQ := Pitch.mk
  random_in_range := fun lo _ => lo

/-- Set of parent groups (`InternalGroupSet` of `kira/src/group/set.rs`): an
insertion-ordered set of group ids, modelled as a list. -/
structure GroupSet where
  ids : List GroupId

/-- Group of `kira/src/group/mod.rs`: holds its set of parent groups. -/
structure Group where
  groups : GroupSet

/-- Store of groups (`Groups` of `kira/src/group/groups.rs`, not among the
provided sources): an indexed map from group ids to groups, modelled as an
association list. -/
structure Groups where
  groups : List (GroupId × Group)

/-- Lookup of a group by id. -/
def Groups.get (gs : Groups) (id : GroupId) : Option Group :=
  (gs.groups.find? (fun kv => kv.1 == id)).map (fun kv => kv.2)

/-- Recursion of `InternalGroupSet::has_ancestor` of `kira/src/group/set.rs`,
made total with an explicit recursion budget: the source recurses through the
group table, which terminates because cycles are rejected when groups are
added (spec §7, `GroupCycle`); on an acyclic table every ancestor chain is
shorter than the number of groups, so a budget of `#groups + 1` never runs
out.  The body is a direct translation: absent target group means `false`;
then membership of the target in the set; then the recursive walk through the
sets of the groups in this set. -/
def GroupSet.has_ancestor_fuel : ℕ → GroupSet → GroupId → Groups → Bool
  | 0, _, _, _ => false
  | fuel + 1, s, ancestor, all_groups =>
    if (all_groups.get ancestor).isNone then false
    else if s.ids.contains ancestor then true
    else s.ids.any fun id =>
      match all_groups.get id with
      | some group => group.groups.has_ancestor_fuel fuel ancestor all_groups
      | none => false

/-- Method `InternalGroupSet::has_ancestor` of `kira/src/group/set.rs`:
returns true if one of the groups in the set has the specified group as an
ancestor or is that group itself. -/
def GroupSet.has_ancestor (s : GroupSet) (ancestor : GroupId) (all_groups : Groups) : Bool :=
  GroupSet.has_ancestor_fuel (all_groups.groups.length + 1) s ancestor all_groups

/-- SoundId of `kira/src/sound/id.rs`: the id carries the sound's immutable
metadata (duration, default track, semantic duration, default loop start);
equality is on `index` alone. -/
structure SoundId where
  index : ℕ
  duration : ℚ
  default_track : TrackIndex
  semantic_duration : Option ℚ
  default_loop_start : Option ℚ

/-- ArrangementId of `kira/src/arrangement/id.rs`: same metadata envelope as
`SoundId`; equality is on `index` alone. -/
structure ArrangementId where
  index : ℕ
  duration : ℚ
  default_track : TrackIndex
  semantic_duration : Option ℚ
  default_loop_start : Option ℚ

/-- Playable of `kira/src/playable.rs` (the enum itself is not among the
provided sources; the spec's data model gives the tagged variant
`{Sound(id) | Arrangement(id)}`). -/
inductive Playable where
  | Sound (id : SoundId) : Playable
  | Arrangement (id : ArrangementId) : Playable

/-- Duration of a playable, read from the metadata carried by its id. -/
def Playable.duration : Playable → ℚ
  | .Sound id => id.duration
  | .Arrangement id => id.duration

/-- Equality of playables, following the `PartialEq` implementations of
`kira/src/sound/id.rs` and `kira/src/arrangement/id.rs`: ids of the same
variant are equal exactly when their integer indices are equal. -/
def Playable.beq : Playable → Playable → Bool
  | .Sound a, .Sound b => a.index == b.index
  | .Arrangement a, .Arrangement b => a.index == b.index
  | _, _ => false

/-- Runtime cooldown and group state shared by the stored `Sound` and
`Arrangement` resources.  The cooldown methods are translated from
`kira/src/arrangement/mod.rs` (`start_cooldown` / `update_cooldown` /
`cooling_down`); the sound's (`kira/src/sound/mod.rs`, not among the provided
sources) are the same per the spec's single cooldown behavior for playables. -/
structure PlayableRes where
  cooldown : Option ℚ
  cooldown_timer : ℚ
  groups : GroupSet

/-- Method `start_cooldown` of `kira/src/arrangement/mod.rs`: starts the
cooldown timer when a cooldown is configured. -/
def PlayableRes.start_cooldown (p : PlayableRes) : PlayableRes :=
  match p.cooldown with
  | some cooldown => { p with cooldown_timer := cooldown }
  | none => p

/-- Method `update_cooldown` of `kira/src/arrangement/mod.rs`: the timer
counts down by `dt` while it is positive. -/
def PlayableRes.update_cooldown (p : PlayableRes) (dt : ℚ) : PlayableRes :=
  if p.cooldown_timer > 0 then { p with cooldown_timer := p.cooldown_timer - dt } else p

/-- Method `cooling_down` of `kira/src/arrangement/mod.rs`: the playable is
cooling down while the timer is positive. -/
def PlayableRes.cooling_down (p : PlayableRes) : Bool :=
  p.cooldown_timer > 0

/-- Membership test `is_in_group` of `kira/src/arrangement/mod.rs`: delegates
to the ancestry test of the resource's group set. -/
def PlayableRes.is_in_group (p : PlayableRes) (id : GroupId) (all_groups : Groups) : Bool :=
  p.groups.has_ancestor id all_groups

/-- Store of playables (`Playables` of `kira/src/playable.rs`, not among the
provided sources): the sound and arrangement maps of the backend, keyed by
the integer index of the id. -/
structure Playables where
  sounds : List (ℕ × PlayableRes)
  arrangements : List (ℕ × PlayableRes)

/-- Lookup `Playables::playable` resolving a playable id to its stored
resource. -/
def Playables.playable (ps : Playables) (id : Playable) : Option PlayableRes :=
  match id with
  | .Sound sid => ((ps.sounds.find? (fun kv => kv.1 == sid.index)).map (fun kv => kv.2))
  | .Arrangement aid =>
    ((ps.arrangements.find? (fun kv => kv.1 == aid.index)).map (fun kv => kv.2))

/-- Functional counterpart of `Playables::playable_mut` followed by a write:
applies `f` to the resource stored for `id`, if any. -/
def Playables.modify (ps : Playables) (id : Playable) (f : PlayableRes → PlayableRes) :
    Playables :=
  match id with
  | .Sound sid =>
    { ps with
      sounds := ps.sounds.map fun kv => if kv.1 == sid.index then (kv.1, f kv.2) else kv }
  | .Arrangement aid =>
    { ps with
      arrangements :=
        ps.arrangements.map fun kv => if kv.1 == aid.index then (kv.1, f kv.2) else kv }

/-- InstanceState enum of `kira/src/instance/mod.rs`: `Paused` and `Pausing`
remember the position at which the pause happened. -/
inductive InstanceState where
  | Playing : InstanceState
  | Paused (position : ℚ) : InstanceState
  | Stopped : InstanceState
  | Pausing (position : ℚ) : InstanceState
  | Stopping : InstanceState
deriving DecidableEq

/-- Settings of `Instance::pause` (`kira/src/instance/settings.rs`, not among
the provided sources; the field is evident from its uses in
`kira/src/instance/mod.rs` and the spec's `pause(fade_tween)`). -/
structure PauseInstanceSettings where
  fade_tween : Option Tween

/-- Settings of `Instance::resume` (`kira/src/instance/settings.rs`, not
among the provided sources; the fields are evident from their uses in
`kira/src/instance/mod.rs` and the spec's
`resume(fade_tween, rewind_to_pause_position)`). -/
structure ResumeInstanceSettings where
  fade_tween : Option Tween
  rewind_to_pause_position : Bool

/-- Settings of `Instance::stop` (`kira/src/instance/settings.rs`, not among
the provided sources; the field is evident from its uses in
`kira/src/instance/mod.rs` and the spec's `stop(fade_tween)`). -/
structure StopInstanceSettings where
  fade_tween : Option Tween

/-- Instance struct of `kira/src/instance/mod.rs`. -/
structure Instance where
  playable : Playable
  track_index : TrackIndex
  sequence_id : Option SequenceInstanceId
  volume : CachedValue ℚ
  pitch : CachedValue Pitch
  panning : CachedValue ℚ
  loop_start : Option ℚ
  reverse : Bool
  state : InstanceState
  position : ℚ
  fade_volume : Parameter

/-- Method `Instance::playing` of `kira/src/instance/mod.rs`: true for
`Playing`, `Pausing` and `Stopping`. -/
def Instance.playing (i : Instance) : Bool :=
  match i.state with
  | .Playing => true
  | .Paused _ => false
  | .Stopped => false
  | .Pausing _ => true
  | .Stopping => true

/-- Method `Instance::finished` of `kira/src/instance/mod.rs`. -/
def Instance.finished (i : Instance) : Bool :=
  i.state = InstanceState.Stopped

/-- Method `Instance::set_volume` of `kira/src/instance/mod.rs`. -/
def Instance.set_volume (i : Instance) (volume : Value ℚ) : Instance :=
  { i with volume := i.volume.set volume }

/-- Method `Instance::set_pitch` of `kira/src/instance/mod.rs` (named
`set_playback_rate` at the call site in
`kira/src/manager/backend/instances.rs`). -/
def Instance.set_pitch (i : Instance) (pitch : Value Pitch) : Instance :=
  { i with pitch := i.pitch.set pitch }

/-- Method `Instance::set_panning` of `kira/src/instance/mod.rs`. -/
def Instance.set_panning (i : Instance) (panning : Value ℚ) : Instance :=
  { i with panning := i.panning.set panning }

/-- Method `Instance::seek` of `kira/src/instance/mod.rs`. -/
def Instance.seek (i : Instance) (offset : ℚ) : Instance :=
  { i with position := i.position + offset }

/-- Method `Instance::seek_to` of `kira/src/instance/mod.rs`. -/
def Instance.seek_to (i : Instance) (position : ℚ) : Instance :=
  { i with position := position }

/-- Method `Instance::pause` of `kira/src/instance/mod.rs`: unconditionally
enters `Pausing` (with a fade tween) or `Paused` (without) and fades the fade
volume toward 0. -/
def Instance.pause (i : Instance) (settings : PauseInstanceSettings) : Instance :=
  { i with
    state :=
      if settings.fade_tween.isSome then InstanceState.Pausing i.position
      else InstanceState.Paused i.position
    fade_volume := i.fade_volume.set 0 settings.fade_tween }

/-- Method `Instance::resume` of `kira/src/instance/mod.rs`: only from
`Paused` or `Pausing`; otherwise the instance is left untouched. -/
def Instance.resume (i : Instance) (settings : ResumeInstanceSettings) : Instance :=
  match i.state with
  | .Paused position =>
    let i := { i with state := InstanceState.Playing }
    let i := if settings.rewind_to_pause_position then i.seek_to position else i
    { i with fade_volume := i.fade_volume.set 1 settings.fade_tween }
  | .Pausing position =>
    let i := { i with state := InstanceState.Playing }
    let i := if settings.rewind_to_pause_position then i.seek_to position else i
    { i with fade_volume := i.fade_volume.set 1 settings.fade_tween }
  | _ => i

/-- Method `Instance::stop` of `kira/src/instance/mod.rs`: unconditionally
enters `Stopping` (with a fade tween) or `Stopped` (without) and fades the
fade volume toward 0. -/
def Instance.stop (i : Instance) (settings : StopInstanceSettings) : Instance :=
  { i with
    state :=
      if settings.fade_tween.isSome then InstanceState.Stopping
      else InstanceState.Stopped
    fade_volume := i.fade_volume.set 0 settings.fade_tween }

/-- Loop `while self.position < loop_start { self.position += duration -
loop_start }` of `Instance::update` (`kira/src/instance/mod.rs`, backward
playback).  The source loop diverges when `duration ≤ loop_start` (spec §9
leaves that configuration as an open question); the model guards that case
and returns the position unchanged, and every theorem about it assumes
`loop_start < duration`. -/
def wrapBackward (loop_start duration : ℚ) (position : ℚ) : ℚ :=
  if h : duration ≤ loop_start then position
  else if hp : position < loop_start then
    wrapBackward loop_start duration (position + (duration - loop_start))
  else position
termination_by (⌈(loop_start - position) / (duration - loop_start)⌉).toNat
decreasing_by
  have hc : (0 : ℚ) < duration - loop_start := by linarith
  have hx : (0 : ℚ) < loop_start - position := by linarith
  have hne : duration - loop_start ≠ 0 := ne_of_gt hc
  have hrw : (loop_start - (position + (duration - loop_start))) / (duration - loop_start)
      = (loop_start - position) / (duration - loop_start) - 1 := by
    rw [show loop_start - (position + (duration - loop_start))
        = (loop_start - position) - (duration - loop_start) by ring]
    rw [sub_div, div_self hne]
  have hceil : ⌈(loop_start - (position + (duration - loop_start))) / (duration - loop_start)⌉
      = ⌈(loop_start - position) / (duration - loop_start)⌉ - 1 := by
    rw [hrw, Int.ceil_sub_one]
  have hpos : 0 < ⌈(loop_start - position) / (duration - loop_start)⌉ :=
    Int.ceil_pos.mpr (div_pos hx hc)
  omega

/-- Loop `while self.position > duration { self.position -= duration -
loop_start }` of `Instance::update` (`kira/src/instance/mod.rs`, forward
playback), with the same `loop_start < duration` guard as `wrapBackward`. -/
def wrapForward (loop_start duration : ℚ) (position : ℚ) : ℚ :=
  if h : duration ≤ loop_start then position
  else if hp : position > duration then
    wrapForward loop_start duration (position - (duration - loop_start))
  else position
termination_by (⌈(position - duration) / (duration - loop_start)⌉).toNat
decreasing_by
  have hc : (0 : ℚ) < duration - loop_start := by linarith
  have hx : (0 : ℚ) < position - duration := by linarith
  have hne : duration - loop_start ≠ 0 := ne_of_gt hc
  have hrw : (position - (duration - loop_start) - duration) / (duration - loop_start)
      = (position - duration) / (duration - loop_start) - 1 := by
    rw [show position - (duration - loop_start) - duration
        = (position - duration) - (duration - loop_start) by ring]
    rw [sub_div, div_self hne]
  have hceil : ⌈(position - (duration - loop_start) - duration) / (duration - loop_start)⌉
      = ⌈(position - duration) / (duration - loop_start)⌉ - 1 := by
    rw [hrw, Int.ceil_sub_one]
  have hpos : 0 < ⌈(position - duration) / (duration - loop_start)⌉ :=
    Int.ceil_pos.mpr (div_pos hx hc)
  omega

/-- Position-advancement phase of `Instance::update`
(`kira/src/instance/mod.rs`): run only while `playing()`; resolves the cached
values, computes the effective rate from the pitch factor and the reverse
flag, advances the position, then wraps at the loop region or transitions to
`Stopped` past the ends. -/
def Instance.update_position (i : Instance) (dt : ℚ) (parameters : Parameters) : Instance :=
  if i.playing then
    let volume := i.volume.update parameters
    let pitchCv := i.pitch.update parameters
    let panning := i.panning.update parameters
    let pitch0 := pitchCv.last_value.to_factor
    let pitch := if i.reverse then pitch0 * (-1) else pitch0
    let i := { i with volume, pitch := pitchCv, panning, position := i.position + pitch * dt }
    if pitch < 0 then
      match i.loop_start with
      | some loop_start =>
        { i with position := wrapBackward loop_start i.playable.duration i.position }
      | none =>
        if i.position < 0 then { i with state := InstanceState.Stopped } else i
    else
      match i.loop_start with
      | some loop_start =>
        { i with position := wrapForward loop_start i.playable.duration i.position }
      | none =>
        if i.position > i.playable.duration then { i with state := InstanceState.Stopped }
        else i
  else i

/-- Method `Instance::update` of `kira/src/instance/mod.rs`: the position
phase, then the fade-volume tween; when the fade finishes, `Pausing` becomes
`Paused` and `Stopping` becomes `Stopped`. -/
def Instance.update (i : Instance) (dt : ℚ) (parameters : Parameters) : Instance :=
  let i := i.update_position dt parameters
  let fade := i.fade_volume.update dt
  let i := { i with fade_volume := fade.1 }
  if fade.2 then
    match i.state with
    | .Pausing position => { i with state := InstanceState.Paused position }
    | .Stopping => { i with state := InstanceState.Stopped }
    | _ => i
  else i

/-- Effective playback rate of an instance (spec §4.2:
`r = pitch.to_factor() * (reverse ? -1 : 1)`), exactly the rate computed
inside `Instance::update` from the freshly resolved pitch. -/
def effective_rate (i : Instance) (parameters : Parameters) : ℚ :=
  if i.reverse then (i.pitch.update parameters).last_value.to_factor * (-1)
  else (i.pitch.update parameters).last_value.to_factor

/-- Static-capacity insertion-ordered map of `kira/src/static_container`
(not among the provided sources).  Modelled from the spec's allocation policy
(§5: "audio-side containers are static-capacity indexed maps") with the
`IndexMap` semantics the source builds on: entries are kept in insertion
order. -/
structure StaticIndexMap (V : Type) where
  capacity : ℕ
  entries : List (InstanceId × V)

/-- Number of stored entries (`len`). -/
def StaticIndexMap.len (m : StaticIndexMap V) : ℕ := m.entries.length

/-- Lookup by key (`get`/`get_mut`). -/
def StaticIndexMap.get? (m : StaticIndexMap V) (key : InstanceId) : Option V :=
  (m.entries.find? (fun kv => kv.1 == key)).map (fun kv => kv.2)

/-- Functional counterpart of `get_mut` followed by a write: applies `f` to
the entry stored under `key`, if any. -/
def StaticIndexMap.modify (m : StaticIndexMap V) (key : InstanceId) (f : V → V) :
    StaticIndexMap V :=
  { m with entries := m.entries.map fun kv => if kv.1 == key then (kv.1, f kv.2) else kv }

/-- Functional counterpart of mutating every entry (`iter_mut`): applies `f`
to every stored value. -/
def StaticIndexMap.modify_all (m : StaticIndexMap V) (f : InstanceId → V → V) :
    StaticIndexMap V :=
  { m with entries := m.entries.map fun kv => (kv.1, f kv.1 kv.2) }

/-- Removal by insertion-order index (`shift_remove_index`); later entries
shift down, preserving insertion order. -/
def StaticIndexMap.shift_remove_index (m : StaticIndexMap V) (index : ℕ) :
    StaticIndexMap V :=
  { m with entries := m.entries.eraseIdx index }

/-- Insertion (`try_insert`): fails (leaving the map unchanged) at capacity;
otherwise inserts with `IndexMap` semantics (an existing key keeps its
position, a new key goes to the end). -/
def StaticIndexMap.try_insert (m : StaticIndexMap V) (key : InstanceId) (value : V) :
    StaticIndexMap V :=
  if m.len ≥ m.capacity then m
  else if m.entries.any (fun kv => kv.1 == key) then
    { m with entries := m.entries.map fun kv => if kv.1 == key then (key, value) else kv }
  else { m with entries := m.entries ++ [(key, value)] }

/-- InstanceCommand enum of `kira/src/command/mod.rs` (the variants handled
by `Instances::run_command`). -/
inductive InstanceCommand where
  | Play (id : InstanceId) (inst : Instance) : InstanceCommand
  | SetInstanceVolume (id : InstanceId) (value : Value ℚ) : InstanceCommand
  | SetInstancePitch (id : InstanceId) (value : Value Pitch) : InstanceCommand
  | SetInstancePanning (id : InstanceId) (value : Value ℚ) : InstanceCommand
  | SeekInstance (id : InstanceId) (offset : ℚ) : InstanceCommand
  | SeekInstanceTo (id : InstanceId) (position : ℚ) : InstanceCommand
  | PauseInstance (id : InstanceId) (settings : PauseInstanceSettings) : InstanceCommand
  | ResumeInstance (id : InstanceId) (settings : ResumeInstanceSettings) : InstanceCommand
  | StopInstance (id : InstanceId) (settings : StopInstanceSettings) : InstanceCommand
  | PauseInstancesOf (playable : Playable) (settings : PauseInstanceSettings) : InstanceCommand
  | ResumeInstancesOf (playable : Playable) (settings : ResumeInstanceSettings) : InstanceCommand
  | StopInstancesOf (playable : Playable) (settings : StopInstanceSettings) : InstanceCommand
  | PauseGroup (id : GroupId) (settings : PauseInstanceSettings) : InstanceCommand
  | ResumeGroup (id : GroupId) (settings : ResumeInstanceSettings) : InstanceCommand
  | StopGroup (id : GroupId) (settings : StopInstanceSettings) : InstanceCommand
  | PauseInstancesOfSequence (id : SequenceInstanceId) (settings : PauseInstanceSettings) :
      InstanceCommand
  | ResumeInstancesOfSequence (id : SequenceInstanceId) (settings : ResumeInstanceSettings) :
      InstanceCommand
  | StopInstancesOfSequence (id : SequenceInstanceId) (settings : StopInstanceSettings) :
      InstanceCommand

/-- Instances collection of `kira/src/manager/backend/instances.rs` (the
removal scratch list only matters to `process`, which no claim is about). -/
structure Instances where
  instances : StaticIndexMap Instance

/-- Method `Instances::stop_instances_of` of
`kira/src/manager/backend/instances.rs`. -/
def Instances.stop_instances_of (s : Instances) (playable : Playable)
    (settings : StopInstanceSettings) : Instances :=
  { instances :=
      s.instances.modify_all fun _ inst =>
        if inst.playable.beq playable then inst.stop settings else inst }

/-- Method `Instances::run_command` of
`kira/src/manager/backend/instances.rs`, translated case by case.  `Play`
consults and restarts the playable's cooldown, so the playable store is
threaded through and returned alongside the collection. -/
def Instances.run_command (s : Instances) (command : InstanceCommand)
    (playables : Playables) (all_groups : Groups) : Instances × Playables :=
  match command with
  | .Play id inst =>
    match playables.playable inst.playable with
    | some playable =>
      if !playable.cooling_down then
        -- if we're at the instance limit, remove the instance that was
        -- started the longest time ago.
        let m :=
          if s.instances.len ≥ s.instances.capacity then s.instances.shift_remove_index 0
          else s.instances
        let m := m.try_insert id inst
        ({ instances := m }, playables.modify inst.playable PlayableRes.start_cooldown)
      else (s, playables)
    | none => (s, playables)
  | .SetInstanceVolume id value =>
    ({ instances := s.instances.modify id (fun inst => inst.set_volume value) }, playables)
  | .SetInstancePitch id value =>
    ({ instances := s.instances.modify id (fun inst => inst.set_pitch value) }, playables)
  | .SetInstancePanning id value =>
    ({ instances := s.instances.modify id (fun inst => inst.set_panning value) }, playables)
  | .SeekInstance id offset =>
    ({ instances := s.instances.modify id (fun inst => inst.seek offset) }, playables)
  | .SeekInstanceTo id position =>
    ({ instances := s.instances.modify id (fun inst => inst.seek_to position) }, playables)
  | .PauseInstance id settings =>
    ({ instances := s.instances.modify id (fun inst => inst.pause settings) }, playables)
  | .ResumeInstance id settings =>
    ({ instances := s.instances.modify id (fun inst => inst.resume settings) }, playables)
  | .StopInstance id settings =>
    ({ instances := s.instances.modify id (fun inst => inst.stop settings) }, playables)
  | .PauseInstancesOf playable settings =>
    ({ instances :=
        s.instances.modify_all fun _ inst =>
          if inst.playable.beq playable then inst.pause settings else inst }, playables)
  | .ResumeInstancesOf playable settings =>
    ({ instances :=
        s.instances.modify_all fun _ inst =>
          if inst.playable.beq playable then inst.resume settings else inst }, playables)
  | .StopInstancesOf playable settings => (s.stop_instances_of playable settings, playables)
  | .PauseGroup id settings =>
    ({ instances :=
        s.instances.modify_all fun _ inst =>
          match playables.playable inst.playable with
          | some playable =>
            if playable.is_in_group id all_groups then inst.pause settings else inst
          | none => inst }, playables)
  | .ResumeGroup id settings =>
    ({ instances :=
        s.instances.modify_all fun _ inst =>
          match playables.playable inst.playable with
          | some playable =>
            if playable.is_in_group id all_groups then inst.resume settings else inst
          | none => inst }, playables)
  | .StopGroup id settings =>
    ({ instances :=
        s.instances.modify_all fun _ inst =>
          match playables.playable inst.playable with
          | some playable =>
            if playable.is_in_group id all_groups then inst.stop settings else inst
          | none => inst }, playables)
  | .PauseInstancesOfSequence id settings =>
    ({ instances :=
        s.instances.modify_all fun _ inst =>
          if inst.sequence_id == some id then inst.pause settings else inst }, playables)
  | .ResumeInstancesOfSequence id settings =>
    ({ instances :=
        s.instances.modify_all fun _ inst =>
          if inst.sequence_id == some id then inst.resume settings else inst }, playables)
  | .StopInstancesOfSequence id settings =>
    ({ instances :=
        s.instances.modify_all fun _ inst =>
          if inst.sequence_id == some id then inst.stop settings else inst }, playables)

/-- Tempo newtype (`kira/src/tempo.rs`, not among the provided sources): a
number of beats per minute, per the spec's `Tempo(bpm)`. -/
structure Tempo where
  bpm : ℚ

instance : AsValue Tempo where
  ofQ := Tempo.mk
  random_in_range := fun lo _ => lo

/-- Metronome struct of `old/kira/src/metronome/mod.rs`.  The outbound
`event_sender` is an external channel; the values the source pushes into it
during an update are returned by `Metronome.update` instead. -/
structure Metronome where
  tempo : CachedValue Tempo
  interval_events_to_emit : List ℚ
  ticking : Bool
  time : ℚ
  previous_time : ℚ

/-- Method `Metronome::effective_tempo` of `old/kira/src/metronome/mod.rs`:
the cached tempo while ticking, `Tempo(0)` otherwise. -/
def Metronome.effective_tempo (m : Metronome) : Tempo :=
  if m.ticking then m.tempo.last_value else Tempo.mk 0

/-- Method `Metronome::start` of `old/kira/src/metronome/mod.rs`. -/
def Metronome.start (m : Metronome) : Metronome := { m with ticking := true }

/-- Method `Metronome::pause` of `old/kira/src/metronome/mod.rs`: only clears
`ticking`. -/
def Metronome.pause (m : Metronome) : Metronome := { m with ticking := false }

/-- Method `Metronome::stop` of `old/kira/src/metronome/mod.rs`: clears
`ticking` and resets both clocks. -/
def Metronome.stop (m : Metronome) : Metronome :=
  { m with ticking := false, time := 0, previous_time := 0 }

/-- Method `Metronome::interval_passed` of `old/kira/src/metronome/mod.rs`:
false when not ticking; true on the very first update (`previous_time == 0`);
otherwise true exactly when the remainder of the time modulo the interval
decreased across the frame. -/
def Metronome.interval_passed (m : Metronome) (interval : ℚ) : Bool :=
  if !m.ticking then false
  else if m.previous_time == 0 then true
  else fmod m.previous_time interval > fmod m.time interval

/-- Method `Metronome::update` of `old/kira/src/metronome/mod.rs`: refreshes
the cached tempo; while ticking, shifts `previous_time`, advances `time` by
`(bpm / 60) * dt` and pushes every configured interval that `interval_passed`
reports; the pushed intervals are returned in order. -/
def Metronome.update (m : Metronome) (dt : ℚ) (parameters : Parameters) :
    Metronome × List ℚ :=
  let m := { m with tempo := m.tempo.update parameters }
  if m.ticking then
    let m := { m with
      previous_time := m.time
      time := m.time + (m.tempo.last_value.bpm / 60) * dt }
    (m, m.interval_events_to_emit.filter (fun interval => m.interval_passed interval))
  else (m, [])

/-- Store of metronomes (`Metronomes` of
`old/kira/src/metronome/metronomes.rs`, not among the provided sources): an
indexed map, modelled as an association list. -/
structure Metronomes where
  metronomes : List (ℕ × Metronome)

/-- Lookup of a metronome by id. -/
def Metronomes.get (ms : Metronomes) (id : ℕ) : Option Metronome :=
  (ms.metronomes.find? (fun kv => kv.1 == id)).map (fun kv => kv.2)

/-- Duration of a sequence wait step (`old/kira/src/duration.rs`, not among
the provided sources).  Modelled from the spec (§4.6): either seconds or
beats, converted with the bound metronome's effective tempo. -/
inductive Duration where
  | Seconds (s : ℚ) : Duration
  | Beats (b : ℚ) : Duration

/-- Conversion of a duration to seconds at a tempo.  Modelled from the spec
(§4.6): beats convert through the tempo; at 0 bpm the source produces an
infinite number of seconds (the wait never completes), which the model's
division by zero mirrors as a wait timer that never decreases. -/
def Duration.in_seconds (d : Duration) (tempo : Tempo) : ℚ :=
  match d with
  | .Seconds s => s
  | .Beats b => b * (60 / tempo.bpm)

/-- Output command pushed by a sequence step
(`SequenceOutputCommand` of `old/kira/src/sequence/mod.rs`, not among the
provided sources).  `PlaySound` is the shape `PlayRandom` emits; the many
other variants (instance, metronome and parameter commands) are carried
opaquely, since the claims checked here depend only on how many commands a
frame emits and on which step emitted them. -/
inductive SequenceOutputCommand where
  | PlaySound (id : InstanceId) (sound : ℕ) (settings : ℕ) : SequenceOutputCommand
  | Command (tag : ℕ) : SequenceOutputCommand
deriving DecidableEq

/-- Step enum of `old/kira/src/sequence/mod.rs` (`SequenceStep`), the five
step kinds interpreted by `SequenceInstance::update`. -/
inductive SequenceStep where
  | Wait (duration : Duration) : SequenceStep
  | WaitForInterval (interval : ℚ) : SequenceStep
  | RunCommand (command : SequenceOutputCommand) : SequenceStep
  | PlayRandom (id : InstanceId) (choices : List ℕ) (settings : ℕ) : SequenceStep
  | EmitCustomEvent (event : ℕ) : SequenceStep

/-- Raw sequence of `old/kira/src/sequence/mod.rs` (not among the provided
sources): the validated step list and the optional loop point, per the spec's
data model (`steps: [Step]`, `loop_point: Option<usize>`). -/
structure RawSequence where
  steps : List SequenceStep
  loop_point : Option ℕ

/-- Modelled from the spec (§4.6): on wrapping to the loop point the source's
`RawSequence::update_instance_ids` replaces every instance id embedded in the
steps with a freshly minted id from the process-global atomic counter, so
each loop iteration produces distinct instances.  Minting from a global
counter is outside a pure model; the claims checked here depend only on the
step list's length, step kinds and loop point, all of which the source's
reassignment leaves unchanged, so the model leaves the ids unchanged too. -/
def RawSequence.update_instance_ids (s : RawSequence) : RawSequence := s

/-- State enum `SequenceInstanceState` of
`old/kira/src/sequence/instance.rs`. -/
inductive SequenceInstanceState where
  | Playing : SequenceInstanceState
  | Paused : SequenceInstanceState
  | Finished : SequenceInstanceState
deriving DecidableEq

/-- Sequence instance of `old/kira/src/sequence/instance.rs`.  The
`public_state` atomic mirror is written in lockstep with `state` and is
control-side observable state, so the model keeps only `state`; the custom
event channel is modelled by returning emitted events from `update`. -/
structure SequenceInstance where
  sequence : RawSequence
  metronome : Option ℕ
  state : SequenceInstanceState
  position : ℕ
  wait_timer : Option ℚ
  muted : Bool

/-- Method `SequenceInstance::set_state` of
`old/kira/src/sequence/instance.rs`. -/
def SequenceInstance.set_state (s : SequenceInstance) (state : SequenceInstanceState) :
    SequenceInstance :=
  { s with state }

/-- Method `SequenceInstance::start_step` of
`old/kira/src/sequence/instance.rs`: a valid index becomes the new position
(arming the wait timer exactly for `Wait` steps); past the end, a loop point
reassigns the embedded instance ids and restarts from the loop point, and
otherwise the sequence finishes.  The source recurses once more after
jumping to the loop point; that inner call is unfolded here, with the case of
a loop point that is itself out of range (on which the source would recurse
forever — control-side validation rejects such sequences, spec §7) left as
the unchanged state. -/
def SequenceInstance.start_step (s : SequenceInstance) (index : ℕ) : SequenceInstance :=
  match s.sequence.steps.get? index with
  | some step =>
    { s with
      position := index
      wait_timer := match step with | .Wait _ => some 1 | _ => none }
  | none =>
    match s.sequence.loop_point with
    | some loop_point =>
      let s := { s with sequence := s.sequence.update_instance_ids }
      match s.sequence.steps.get? loop_point with
      | some step =>
        { s with
          position := loop_point
          wait_timer := match step with | .Wait _ => some 1 | _ => none }
      | none => s
    | none => s.set_state SequenceInstanceState.Finished

/-- Method `SequenceInstance::start` of `old/kira/src/sequence/instance.rs`. -/
def SequenceInstance.start (s : SequenceInstance) : SequenceInstance :=
  s.start_step 0

/-- Dispatch loop of `SequenceInstance::update` of
`old/kira/src/sequence/instance.rs`, one constructor case per step kind.  The
source's `loop { ... }` has no iteration bound, so the model counts loop
iterations with an explicit budget and returns `none` for the sequence
instance when the budget is exhausted before the loop reaches a `break`
(which is exactly when the source loops for longer than the budget).  The
accumulated output commands and custom events are returned in either case.
The random draw of `PlayRandom` comes from the thread-local RNG in the
source; it enters the model as the `draw` argument.  Within one iteration:
`Paused`/`Finished` breaks; a `Wait` step with an armed timer decrements it
by `dt / duration` and breaks (advancing first when it reached zero);
`WaitForInterval` advances when the bound metronome just passed the interval
and breaks; the three zero-duration steps emit (unless muted) and continue
with the next step. -/
def SequenceInstance.update_loop (fuel : ℕ) (s : SequenceInstance) (dt : ℚ)
    (metronome : Option Metronome) (draw : ℕ → ℕ)
    (out : List SequenceOutputCommand) (events : List ℕ) :
    Option SequenceInstance × List SequenceOutputCommand × List ℕ :=
  match fuel with
  | 0 => (none, out, events)
  | fuel + 1 =>
    match s.state with
    | .Paused => (some s, out, events)
    | .Finished => (some s, out, events)
    | .Playing =>
      match s.sequence.steps.get? s.position with
      | none =>
        -- a `Playing` instance whose position is past the end spins in the
        -- source's loop without a break; unreachable after `start`.
        SequenceInstance.update_loop fuel s dt metronome draw out events
      | some step =>
        match step with
        | .Wait duration =>
          match s.wait_timer with
          | some time =>
            let seconds := duration.in_seconds
              (match metronome with
               | some metronome => metronome.effective_tempo
               | none => Tempo.mk 0)
            let time := time - dt / seconds
            let s := { s with wait_timer := some time }
            let s := if time ≤ 0 then s.start_step (s.position + 1) else s
            (some s, out, events)
          | none =>
            -- a `Wait` step with a disarmed timer spins in the source's
            -- loop without a break; unreachable after `start`.
            SequenceInstance.update_loop fuel s dt metronome draw out events
        | .WaitForInterval interval =>
          let s :=
            match metronome with
            | some metronome =>
              if metronome.interval_passed interval then s.start_step (s.position + 1) else s
            | none => s
          (some s, out, events)
        | .RunCommand command =>
          let out := if !s.muted then out ++ [command] else out
          SequenceInstance.update_loop fuel (s.start_step (s.position + 1)) dt metronome draw
            out events
        | .PlayRandom id choices settings =>
          let choice_index := draw choices.length
          let out :=
            if !s.muted then
              out ++ [SequenceOutputCommand.PlaySound id (choices.getD choice_index 0) settings]
            else out
          SequenceInstance.update_loop fuel (s.start_step (s.position + 1)) dt metronome draw
            out events
        | .EmitCustomEvent event =>
          let events := if !s.muted then events ++ [event] else events
          SequenceInstance.update_loop fuel (s.start_step (s.position + 1)) dt metronome draw
            out events

/-- Method `SequenceInstance::update` of `old/kira/src/sequence/instance.rs`:
resolves the bound metronome once, then runs the dispatch loop with the given
iteration budget. -/
def SequenceInstance.update (fuel : ℕ) (s : SequenceInstance) (dt : ℚ)
    (metronomes : Metronomes) (draw : ℕ → ℕ) :
    Option SequenceInstance × List SequenceOutputCommand × List ℕ :=
  SequenceInstance.update_loop fuel s dt (s.metronome.bind (fun id => metronomes.get id))
    draw [] []

/-- Reachable-state invariant of a sequence instance: while `Playing`, the
position indexes a real step and, when that step is a `Wait`, the wait timer
is armed.  `start_step` establishes it (a past-the-end index either wraps to
a valid loop point, arming the timer on the way, or finishes the sequence)
and every dispatch preserves it. -/
def SequenceInstance.ready (s : SequenceInstance) : Prop :=
  s.state = SequenceInstanceState.Playing →
    s.position < s.sequence.steps.length ∧
    (∀ d, s.sequence.steps.get? s.position = some (SequenceStep.Wait d) → s.wait_timer.isSome)

/-- Sample sound id used to instantiate the theorems on concrete inputs:
10 seconds long, default track 0, no semantic duration, no default loop
start. -/
def sampleSoundId : SoundId :=
  { index := 0, duration := 10, default_track := 0
    semantic_duration := none, default_loop_start := none }

/-- Sample playable wrapping `sampleSoundId`. -/
def samplePlayable : Playable := Playable.Sound sampleSoundId

/-- Sample instance of `samplePlayable`: fixed volume 1, fixed pitch factor 1,
centered panning, no loop, forward playback, playing at position 3 with a
settled fade volume. -/
def sampleInstance : Instance :=
  { playable := samplePlayable
    track_index := 0
    sequence_id := none
    volume := CachedValue.new (Value.Fixed 1) 1
    pitch := CachedValue.new (Value.Fixed (Pitch.mk 1)) (Pitch.mk 1)
    panning := CachedValue.new (Value.Fixed (1 / 2)) (1 / 2)
    loop_start := none
    reverse := false
    state := InstanceState.Playing
    position := 3
    fade_volume := Parameter.new 1 }

/-- Sample instance in the `Stopped` state. -/
def sampleStoppedInstance : Instance :=
  { sampleInstance with state := InstanceState.Stopped }

/-- Sample resource entry for `samplePlayable` with a 2-second cooldown,
currently not cooling down. -/
def samplePlayableRes : PlayableRes :=
  { cooldown := some 2, cooldown_timer := 0, groups := GroupSet.mk [] }

/-- Sample playable store holding `samplePlayableRes` under
`sampleSoundId.index`. -/
def samplePlayables : Playables :=
  { sounds := [(0, samplePlayableRes)], arrangements := [] }

/-- Empty group table. -/
def noGroups : Groups := Groups.mk []

/-- Empty parameter store. -/
def noParameters : Parameters := Parameters.mk []

/-- Sample instance collection: capacity 1, holding `sampleInstance` under
id 0. -/
def sampleInstances : Instances :=
  { instances := { capacity := 1, entries := [(0, sampleInstance)] } }

/-- Sample mapping used by the cached-value theorems: adds 1. -/
def sampleMapping : Mapping := Mapping.mk (fun q => q + 1)

/-- Sample parameter store: parameter 7 with value 2. -/
def sampleParameters : Parameters := Parameters.mk [(7, Parameter.new 2)]

/-- Sample cached value watching parameter 7 through `sampleMapping`. -/
def sampleCachedValue : CachedValue ℚ :=
  CachedValue.new (Value.Parameter 7 sampleMapping) 0

/-- Sample metronome: fixed tempo 120 bpm, one interval event per beat,
ticking, freshly started. -/
def sampleMetronome : Metronome :=
  { tempo := CachedValue.new (Value.Fixed (Tempo.mk 120)) (Tempo.mk 120)
    interval_events_to_emit := [1]
    ticking := true
    time := 0
    previous_time := 0 }

/-- Pathological sequence of the termination claim: a single zero-duration
command step and a loop point back to it. -/
def pathologicalSequence : RawSequence :=
  { steps := [SequenceStep.RunCommand (SequenceOutputCommand.Command 0)]
    loop_point := some 0 }

/-- Started instance of `pathologicalSequence`. -/
def pathologicalSeqInstance : SequenceInstance :=
  SequenceInstance.start
    { sequence := pathologicalSequence
      metronome := none
      state := SequenceInstanceState.Playing
      position := 0
      wait_timer := none
      muted := false }

/-- Terminating sample sequence instance: a single zero-duration command step
and no loop point. -/
def sampleSeqInstance : SequenceInstance :=
  { sequence :=
      { steps := [SequenceStep.RunCommand (SequenceOutputCommand.Command 5)]
        loop_point := none }
    metronome := none
    state := SequenceInstanceState.Playing
    position := 0
    wait_timer := none
    muted := false }

/-- Empty metronome store. -/
def noMetronomes : Metronomes := Metronomes.mk []

/-- Sample instance paused at position 2. -/
def samplePausedInstance : Instance :=
  { sampleInstance with state := InstanceState.Paused 2 }

/-- Sample resume settings: no fade tween, rewinding to the pause position. -/
def sampleResumeSettings : ResumeInstanceSettings :=
  { fade_tween := none, rewind_to_pause_position := true }

/-- Sample resource entry that is currently cooling down (timer 1 of a
2-second cooldown). -/
def coolingPlayableRes : PlayableRes :=
  { cooldown := some 2, cooldown_timer := 1, groups := GroupSet.mk [] }

/-- Sample playable store in which `samplePlayable` is cooling down. -/
def coolingPlayables : Playables :=
  { sounds := [(0, coolingPlayableRes)], arrangements := [] }

/-- Finding a key in an association list after modifying the value stored
under that key finds the modified value. -/
theorem find_after_modify {α : Type} (l : List (ℕ × α)) (k : ℕ) (f : α → α) :
    (l.map fun kv => if kv.1 == k then (kv.1, f kv.2) else kv).find? (fun kv => kv.1 == k)
      = (l.find? (fun kv => kv.1 == k)).map fun kv => (kv.1, f kv.2) := by
  induction l with
  | nil => rfl
  | cons kv t ih =>
    by_cases h : (kv.1 == k) = true
    · simp only [List.map_cons, if_pos h, List.find?_cons, h]
      simp [h]
    · have hpred : (kv.1 == k) = false := by simpa using h
      simp only [List.map_cons, hpred, Bool.false_eq_true, if_false, List.find?_cons]
      exact ih

/-- Modifying an association list under a key it does not contain leaves it
unchanged. -/
theorem modify_absent {α : Type} (l : List (ℕ × α)) (k : ℕ) (f : α → α)
    (h : l.find? (fun kv => kv.1 == k) = none) :
    (l.map fun kv => if kv.1 == k then (kv.1, f kv.2) else kv) = l := by
  have h' := List.find?_eq_none.mp h
  calc (l.map fun kv => if kv.1 == k then (kv.1, f kv.2) else kv)
      = l.map id := List.map_congr_left (fun kv hkv => by simp [h' kv hkv])
    _ = l := l.map_id

/-- C9: `CachedValue::update` modifies `last_value` only when the wrapped
value is `Parameter(id, mapping)` and a parameter with that id exists, in
which case `last_value` becomes `mapping.map(parameter.value())`; for
`Fixed`, for `Random`, and for a `Parameter` id absent from the parameter
store, the cache is left entirely unchanged, so the last valid raw value
persists after a parameter is removed and a `Random` draw is never re-rolled
by `update`. -/
theorem C9_cached_value_update (cv : CachedValue ℚ) (parameters : Parameters) :
    (∀ x, cv.value = Value.Fixed x → cv.update parameters = cv) ∧
    (∀ lower upper, cv.value = Value.Random lower upper → cv.update parameters = cv) ∧
    (∀ id mapping, cv.value = Value.Parameter id mapping → parameters.get id = none →
      cv.update parameters = cv) ∧
    (∀ id mapping p, cv.value = Value.Parameter id mapping → parameters.get id = some p →
      cv.update parameters = { cv with last_value := mapping.map p.value }) := by
  refine ⟨fun x hx => ?_, fun lower upper hr => ?_, fun id mapping hp hnone => ?_,
    fun id mapping p hp hsome => ?_⟩
  · simp [CachedValue.update, hx]
  · simp [CachedValue.update, hr]
  · simp [CachedValue.update, hp, hnone]
  · simp [CachedValue.update, hp, hsome]; rfl

/-- Witness for C9 at a concrete cached value and store: parameter 7 exists
with value 2, so the cache becomes the mapped raw value. -/
theorem C9_witness :
    sampleCachedValue.value = Value.Parameter 7 sampleMapping ∧
    sampleParameters.get 7 = some (Parameter.new 2) ∧
    sampleCachedValue.update sampleParameters
      = { sampleCachedValue with last_value := sampleMapping.map (Parameter.new 2).value } :=
  ⟨rfl, rfl,
    (C9_cached_value_update sampleCachedValue sampleParameters).2.2.2 7 sampleMapping
      (Parameter.new 2) rfl rfl⟩

/-- Lookup after `modify` under an absent key, lifted to the static map. -/
theorem StaticIndexMap.modify_of_get_none {V : Type} (m : StaticIndexMap V)
    (k : InstanceId) (f : V → V) (h : m.get? k = none) : m.modify k f = m := by
  have hf : m.entries.find? (fun kv => kv.1 == k) = none := by
    simpa [StaticIndexMap.get?, Option.map_eq_none'] using h
  cases m with
  | mk capacity entries =>
    simp only [StaticIndexMap.modify]
    rw [modify_absent _ _ _ hf]

/-- Applying a pointwise-identity function under `modify_all` leaves the map
unchanged. -/
theorem StaticIndexMap.modify_all_id {V : Type} (m : StaticIndexMap V)
    (f : InstanceId → V → V) (hf : ∀ k v, f k v = v) : m.modify_all f = m := by
  cases m with
  | mk capacity entries => simp [StaticIndexMap.modify_all, hf]

/-- C8: every instance-targeted command (set volume/pitch/panning, seek,
seek-to, pause, resume, stop) whose instance id is not present in the
collection returns without error and leaves the collection and the playable
store unchanged: the missing id is silently ignored. -/
theorem C8_missing_id_ignored (s : Instances) (playables : Playables) (all_groups : Groups)
    (id : InstanceId) (h : s.instances.get? id = none) :
    (∀ v, s.run_command (InstanceCommand.SetInstanceVolume id v) playables all_groups
      = (s, playables)) ∧
    (∀ v, s.run_command (InstanceCommand.SetInstancePitch id v) playables all_groups
      = (s, playables)) ∧
    (∀ v, s.run_command (InstanceCommand.SetInstancePanning id v) playables all_groups
      = (s, playables)) ∧
    (∀ offset, s.run_command (InstanceCommand.SeekInstance id offset) playables all_groups
      = (s, playables)) ∧
    (∀ position, s.run_command (InstanceCommand.SeekInstanceTo id position) playables all_groups
      = (s, playables)) ∧
    (∀ st, s.run_command (InstanceCommand.PauseInstance id st) playables all_groups
      = (s, playables)) ∧
    (∀ st, s.run_command (InstanceCommand.ResumeInstance id st) playables all_groups
      = (s, playables)) ∧
    (∀ st, s.run_command (InstanceCommand.StopInstance id st) playables all_groups
      = (s, playables)) := by
  have hm : ∀ f, s.instances.modify id f = s.instances :=
    fun f => s.instances.modify_of_get_none id f h
  cases s with
  | mk inner =>
    refine ⟨fun v => ?_, fun v => ?_, fun v => ?_, fun offset => ?_, fun position => ?_,
      fun st => ?_, fun st => ?_, fun st => ?_⟩ <;>
      simp only [Instances.run_command] <;> rw [hm]

/-- Witness for C8 at a concrete collection: id 5 is absent, so pausing it
changes nothing. -/
theorem C8_witness :
    sampleInstances.instances.get? 5 = none ∧
    sampleInstances.run_command
        (InstanceCommand.PauseInstance 5 { fade_tween := none }) samplePlayables noGroups
      = (sampleInstances, samplePlayables) :=
  ⟨rfl,
    (C8_missing_id_ignored sampleInstances samplePlayables noGroups 5 rfl).2.2.2.2.2.1
      { fade_tween := none }⟩

/-- Ancestry test with a target group that is absent from the group table:
false before any recursion. -/
theorem has_ancestor_absent (set : GroupSet) (ancestor : GroupId) (all_groups : Groups)
    (h : all_groups.get ancestor = none) :
    set.has_ancestor ancestor all_groups = false := by
  simp [GroupSet.has_ancestor, GroupSet.has_ancestor_fuel, h]

/-- C10: `has_ancestor` returns false whenever the queried ancestor group id
is absent from the groups table, even if the set contains that exact id;
consequently `PauseGroup`/`ResumeGroup`/`StopGroup` commands targeting a
removed group id affect no instances. -/
theorem C10_removed_group (set : GroupSet) (ancestor : GroupId) (all_groups : Groups)
    (h : all_groups.get ancestor = none) :
    set.has_ancestor ancestor all_groups = false ∧
    (∀ (s : Instances) (playables : Playables) (st : StopInstanceSettings),
      s.run_command (InstanceCommand.StopGroup ancestor st) playables all_groups
        = (s, playables)) ∧
    (∀ (s : Instances) (playables : Playables) (st : PauseInstanceSettings),
      s.run_command (InstanceCommand.PauseGroup ancestor st) playables all_groups
        = (s, playables)) ∧
    (∀ (s : Instances) (playables : Playables) (st : ResumeInstanceSettings),
      s.run_command (InstanceCommand.ResumeGroup ancestor st) playables all_groups
        = (s, playables)) := by
  refine ⟨has_ancestor_absent set ancestor all_groups h, ?_, ?_, ?_⟩ <;>
  · intro s playables st
    cases s with
    | mk inner =>
      simp only [Instances.run_command]
      rw [StaticIndexMap.modify_all_id]
      intro k inst
      cases hp : playables.playable inst.playable with
      | none => rfl
      | some p =>
        simp [PlayableRes.is_in_group,
          has_ancestor_absent p.groups ancestor all_groups h]

/-- Witness for C10 at a concrete table: group 3 was never added (the table
is empty), the queried set contains 3 itself, and a `StopGroup 3` command
leaves a nonempty collection untouched. -/
theorem C10_witness :
    noGroups.get 3 = none ∧
    (GroupSet.mk [3]).has_ancestor 3 noGroups = false ∧
    sampleInstances.run_command
        (InstanceCommand.StopGroup 3 { fade_tween := none }) samplePlayables noGroups
      = (sampleInstances, samplePlayables) :=
  ⟨rfl, (C10_removed_group (GroupSet.mk [3]) 3 noGroups rfl).1,
    (C10_removed_group (GroupSet.mk [3]) 3 noGroups rfl).2.1 sampleInstances samplePlayables
      { fade_tween := none }⟩

/-- C7: `Instance::resume` transitions to `Playing` only from `Paused(p)` or
`Pausing(p)`; in that case it seeks to `p` exactly when
`rewind_to_pause_position` is set and starts the fade volume toward 1
(tweened or snapped); from any other state (`Playing`, `Stopping`,
`Stopped`) resume leaves the instance entirely unchanged. -/
theorem C7_resume_only_from_paused (i : Instance) (settings : ResumeInstanceSettings) :
    (∀ p, i.state = InstanceState.Paused p ∨ i.state = InstanceState.Pausing p →
      i.resume settings =
        { i with
          state := InstanceState.Playing
          position := if settings.rewind_to_pause_position then p else i.position
          fade_volume := i.fade_volume.set 1 settings.fade_tween }) ∧
    (i.state = InstanceState.Playing → i.resume settings = i) ∧
    (i.state = InstanceState.Stopping → i.resume settings = i) ∧
    (i.state = InstanceState.Stopped → i.resume settings = i) := by
  refine ⟨fun p hp => ?_, fun h => ?_, fun h => ?_, fun h => ?_⟩
  · rcases hp with hp | hp <;>
    · by_cases hr : settings.rewind_to_pause_position <;>
        simp [Instance.resume, hp, Instance.seek_to, hr]
  · simp [Instance.resume, h]
  · simp [Instance.resume, h]
  · simp [Instance.resume, h]

/-- Witness for C7 at a concrete paused instance: resuming with rewind seeks
back to the remembered pause position 2 and re-enters `Playing`. -/
theorem C7_witness :
    samplePausedInstance.state = InstanceState.Paused 2 ∧
    samplePausedInstance.resume sampleResumeSettings =
      { samplePausedInstance with
        state := InstanceState.Playing
        position := 2
        fade_volume := samplePausedInstance.fade_volume.set 1 none } :=
  ⟨rfl,
    (C7_resume_only_from_paused samplePausedInstance sampleResumeSettings).1 2
      (Or.inl rfl)⟩

/-- Counterexample to C1 as stated: `Instance::pause` writes the state
unconditionally, so pausing a `Stopped` instance moves it to `Paused`
(resurrecting it); `Stopped` is not terminal under `pause`. -/
theorem C1_counterexample :
    sampleStoppedInstance.state = InstanceState.Stopped ∧
    (sampleStoppedInstance.pause { fade_tween := none }).state = InstanceState.Paused 3 ∧
    InstanceState.Paused 3 ≠ InstanceState.Stopped :=
  ⟨rfl, rfl, by decide⟩

/-- C1 (amended): for every instance whose state is `Stopped`, no subsequent
`resume`, `seek`, `seek_to`, `stop` without a fade tween, or `update` ever
changes its state; `pause`, however, unconditionally re-enters
`Pausing`/`Paused` (with/without a fade tween), and `stop` with a fade tween
re-enters `Stopping`. -/
theorem C1_stopped_terminal_amended (i : Instance) (h : i.state = InstanceState.Stopped) :
    (∀ settings, (i.resume settings).state = InstanceState.Stopped) ∧
    (∀ offset, (i.seek offset).state = InstanceState.Stopped) ∧
    (∀ position, (i.seek_to position).state = InstanceState.Stopped) ∧
    ((i.stop { fade_tween := none }).state = InstanceState.Stopped) ∧
    (∀ dt parameters, (i.update dt parameters).state = InstanceState.Stopped) ∧
    (∀ settings, (i.pause settings).state =
      if settings.fade_tween.isSome then InstanceState.Pausing i.position
      else InstanceState.Paused i.position) ∧
    (∀ tw, (i.stop { fade_tween := some tw }).state = InstanceState.Stopping) := by
  refine ⟨fun settings => ?_, fun offset => ?_, fun position => ?_, ?_,
    fun dt parameters => ?_, fun settings => ?_, fun tw => ?_⟩
  · simp [Instance.resume, h]
  · simp [Instance.seek, h]
  · simp [Instance.seek_to, h]
  · simp [Instance.stop]
  · have hpl : i.playing = false := by simp [Instance.playing, h]
    simp only [Instance.update, Instance.update_position, hpl, Bool.false_eq_true, if_false]
    cases hf : i.fade_volume.update dt with
    | mk q fin => cases fin <;> simp [h]
  · simp [Instance.pause]
  · simp [Instance.stop]

/-- Witness for the amended C1 at a concrete stopped instance: resume and
update leave it `Stopped`. -/
theorem C1_witness :
    sampleStoppedInstance.state = InstanceState.Stopped ∧
    (sampleStoppedInstance.resume sampleResumeSettings).state = InstanceState.Stopped ∧
    (sampleStoppedInstance.update 1 noParameters).state = InstanceState.Stopped :=
  ⟨rfl,
    (C1_stopped_terminal_amended sampleStoppedInstance rfl).1 sampleResumeSettings,
    (C1_stopped_terminal_amended sampleStoppedInstance rfl).2.2.2.2.1 1 noParameters⟩

/-- Erasing an index never lengthens a list. -/
theorem length_eraseIdx_le {α : Type} (l : List α) (i : ℕ) :
    (l.eraseIdx i).length ≤ l.length := by
  induction l generalizing i with
  | nil => simp [List.eraseIdx]
  | cons a t ih =>
    cases i with
    | zero => simp [List.eraseIdx]
    | succ j => simpa [List.eraseIdx] using ih j

/-- The capacity field survives every operation of the static map. -/
theorem StaticIndexMap.capacity_stable {V : Type} (m : StaticIndexMap V) :
    (∀ k f, (m.modify k f).capacity = m.capacity) ∧
    (∀ f, (m.modify_all f).capacity = m.capacity) ∧
    (∀ i, (m.shift_remove_index i).capacity = m.capacity) ∧
    (∀ k v, (m.try_insert k v).capacity = m.capacity) := by
  refine ⟨fun k f => rfl, fun f => rfl, fun i => rfl, fun k v => ?_⟩
  unfold StaticIndexMap.try_insert
  split
  · rfl
  · split <;> rfl

/-- Modifying entries in place preserves the length of the static map. -/
theorem StaticIndexMap.len_modify {V : Type} (m : StaticIndexMap V) (k : InstanceId)
    (f : V → V) : (m.modify k f).len = m.len := by
  simp [StaticIndexMap.modify, StaticIndexMap.len]

/-- Modifying all entries in place preserves the length of the static map. -/
theorem StaticIndexMap.len_modify_all {V : Type} (m : StaticIndexMap V)
    (f : InstanceId → V → V) : (m.modify_all f).len = m.len := by
  simp [StaticIndexMap.modify_all, StaticIndexMap.len]

/-- Insertion respects the capacity bound: starting within capacity,
`try_insert` stays within capacity (it refuses to insert at capacity). -/
theorem StaticIndexMap.try_insert_len_le {V : Type} (m : StaticIndexMap V) (k : InstanceId)
    (v : V) (h : m.len ≤ m.capacity) : (m.try_insert k v).len ≤ m.capacity := by
  unfold StaticIndexMap.try_insert
  split
  · exact h
  · rename_i hlt
    push_neg at hlt
    split
    · simpa [StaticIndexMap.len] using h
    · have hlt' : m.entries.length < m.capacity := by
        simpa [StaticIndexMap.len] using hlt
      simp only [StaticIndexMap.len, List.length_append, List.length_singleton]
      omega

/-- C4: the instance collection never holds more than its fixed capacity
`num_instances` of instances (every command preserves both the capacity and
the bound), and when a `Play` command arrives while the collection is at
capacity — with the playable present and not cooling down — the oldest
instance (insertion-order index 0) is evicted before the new instance is
appended at the end. -/
theorem C4_capacity_eviction :
    (∀ (s : Instances) (command : InstanceCommand) (playables : Playables)
        (all_groups : Groups),
      s.instances.len ≤ s.instances.capacity →
      (s.run_command command playables all_groups).1.instances.capacity
          = s.instances.capacity ∧
      (s.run_command command playables all_groups).1.instances.len
          ≤ s.instances.capacity) ∧
    (∀ (s : Instances) (id : InstanceId) (inst : Instance) (playables : Playables)
        (all_groups : Groups) (p : PlayableRes),
      playables.playable inst.playable = some p →
      p.cooling_down = false →
      s.instances.len = s.instances.capacity →
      0 < s.instances.capacity →
      s.instances.get? id = none →
      (s.run_command (InstanceCommand.Play id inst) playables all_groups).1.instances.entries
        = s.instances.entries.tail ++ [(id, inst)]) := by
  constructor
  · intro s command playables all_groups hlen
    cases command with
    | Play id inst =>
      simp only [Instances.run_command]
      cases hp : playables.playable inst.playable with
      | none => exact ⟨rfl, hlen⟩
      | some p =>
        dsimp only
        by_cases hc : p.cooling_down = true
        · rw [if_neg (by simp [hc])]
          exact ⟨rfl, hlen⟩
        · have hc' : p.cooling_down = false := by simpa using hc
          rw [if_pos (by simp [hc'])]
          set m0 :=
            if s.instances.len ≥ s.instances.capacity then s.instances.shift_remove_index 0
            else s.instances with hm0
          have hcap0 : m0.capacity = s.instances.capacity := by
            rw [hm0]; split
            · exact (s.instances.capacity_stable).2.2.1 0
            · rfl
          have hlen0 : m0.len ≤ m0.capacity := by
            rw [hcap0, hm0]; split
            · exact le_trans (length_eraseIdx_le _ 0) hlen
            · exact hlen
          refine ⟨?_, ?_⟩
          · rw [(m0.capacity_stable).2.2.2 id inst, hcap0]
          · rw [← hcap0]; exact m0.try_insert_len_le id inst hlen0
    | SetInstanceVolume id v =>
      exact ⟨rfl, by simpa [Instances.run_command, StaticIndexMap.len_modify] using hlen⟩
    | SetInstancePitch id v =>
      exact ⟨rfl, by simpa [Instances.run_command, StaticIndexMap.len_modify] using hlen⟩
    | SetInstancePanning id v =>
      exact ⟨rfl, by simpa [Instances.run_command, StaticIndexMap.len_modify] using hlen⟩
    | SeekInstance id offset =>
      exact ⟨rfl, by simpa [Instances.run_command, StaticIndexMap.len_modify] using hlen⟩
    | SeekInstanceTo id position =>
      exact ⟨rfl, by simpa [Instances.run_command, StaticIndexMap.len_modify] using hlen⟩
    | PauseInstance id st =>
      exact ⟨rfl, by simpa [Instances.run_command, StaticIndexMap.len_modify] using hlen⟩
    | ResumeInstance id st =>
      exact ⟨rfl, by simpa [Instances.run_command, StaticIndexMap.len_modify] using hlen⟩
    | StopInstance id st =>
      exact ⟨rfl, by simpa [Instances.run_command, StaticIndexMap.len_modify] using hlen⟩
    | PauseInstancesOf playable st =>
      exact ⟨rfl, by simpa [Instances.run_command, StaticIndexMap.len_modify_all] using hlen⟩
    | ResumeInstancesOf playable st =>
      exact ⟨rfl, by simpa [Instances.run_command, StaticIndexMap.len_modify_all] using hlen⟩
    | StopInstancesOf playable st =>
      exact ⟨rfl, by
        simpa [Instances.run_command, Instances.stop_instances_of,
          StaticIndexMap.len_modify_all] using hlen⟩
    | PauseGroup id st =>
      exact ⟨rfl, by simpa [Instances.run_command, StaticIndexMap.len_modify_all] using hlen⟩
    | ResumeGroup id st =>
      exact ⟨rfl, by simpa [Instances.run_command, StaticIndexMap.len_modify_all] using hlen⟩
    | StopGroup id st =>
      exact ⟨rfl, by simpa [Instances.run_command, StaticIndexMap.len_modify_all] using hlen⟩
    | PauseInstancesOfSequence id st =>
      exact ⟨rfl, by simpa [Instances.run_command, StaticIndexMap.len_modify_all] using hlen⟩
    | ResumeInstancesOfSequence id st =>
      exact ⟨rfl, by simpa [Instances.run_command, StaticIndexMap.len_modify_all] using hlen⟩
    | StopInstancesOfSequence id st =>
      exact ⟨rfl, by simpa [Instances.run_command, StaticIndexMap.len_modify_all] using hlen⟩
  · intro s id inst playables all_groups p hp hc hfull hcap hfresh
    simp only [Instances.run_command, hp, hc, Bool.not_false, if_true]
    have hge : s.instances.len ≥ s.instances.capacity := ge_of_eq hfull
    simp only [hge, if_true]
    have htail : (s.instances.shift_remove_index 0).entries = s.instances.entries.tail := by
      simp only [StaticIndexMap.shift_remove_index]
      cases s.instances.entries <;> rfl
    have hlen1 : (s.instances.shift_remove_index 0).len < s.instances.capacity := by
      simp only [StaticIndexMap.len, htail, List.length_tail]
      have : s.instances.entries.length = s.instances.capacity := hfull
      omega
    have hnokey : ∀ kv ∈ (s.instances.shift_remove_index 0).entries, (kv.1 == id) = false := by
      intro kv hkv
      have hmem : kv ∈ s.instances.entries := by
        rw [htail] at hkv
        exact List.tail_subset _ hkv
      have hnone : s.instances.entries.find? (fun kv => kv.1 == id) = none := by
        simpa [StaticIndexMap.get?, Option.map_eq_none'] using hfresh
      have := List.find?_eq_none.mp hnone kv hmem
      simpa using this
    have hany : ((s.instances.shift_remove_index 0).entries.any fun kv => kv.1 == id)
        = false := by
      simp only [List.any_eq_false]
      intro kv hkv
      simp [hnokey kv hkv]
    simp only [StaticIndexMap.try_insert, hany]
    have hcap' : (s.instances.shift_remove_index 0).capacity = s.instances.capacity :=
      (s.instances.capacity_stable).2.2.1 0
    have hnotge : ¬((s.instances.shift_remove_index 0).len
        ≥ (s.instances.shift_remove_index 0).capacity) := by
      rw [hcap']; omega
    simp only [hnotge, if_false, Bool.false_eq_true, htail]

/-- Witness for C4 at a concrete collection of capacity 1 holding one
instance: playing a fresh id evicts the oldest entry and appends the new
one. -/
theorem C4_witness :
    sampleInstances.instances.len = sampleInstances.instances.capacity ∧
    (sampleInstances.run_command (InstanceCommand.Play 1 sampleInstance) samplePlayables
        noGroups).1.instances.entries
      = sampleInstances.instances.entries.tail ++ [(1, sampleInstance)] :=
  ⟨rfl,
    C4_capacity_eviction.2 sampleInstances 1 sampleInstance samplePlayables noGroups
      samplePlayableRes rfl rfl rfl (by decide) rfl⟩

/-- Lookup after `Playables.modify` under a key that resolves: the stored
resource is seen through `f`. -/
theorem Playables.playable_modify (ps : Playables) (pid : Playable)
    (f : PlayableRes → PlayableRes) (p : PlayableRes) (h : ps.playable pid = some p) :
    (ps.modify pid f).playable pid = some (f p) := by
  cases pid with
  | Sound sid =>
    simp only [Playables.playable, Playables.modify] at h ⊢
    rw [find_after_modify]
    cases hf : ps.sounds.find? (fun kv => kv.1 == sid.index) with
    | none => rw [hf] at h; simp at h
    | some kv =>
      rw [hf] at h
      simp only [Option.map_some'] at h ⊢
      simp only [Option.some.injEq] at h
      rw [h]
  | Arrangement aid =>
    simp only [Playables.playable, Playables.modify] at h ⊢
    rw [find_after_modify]
    cases hf : ps.arrangements.find? (fun kv => kv.1 == aid.index) with
    | none => rw [hf] at h; simp at h
    | some kv =>
      rw [hf] at h
      simp only [Option.map_some'] at h ⊢
      simp only [Option.some.injEq] at h
      rw [h]

/-- The cooldown timer after a run of frames is bounded below by the starting
timer minus the elapsed simulated time (each frame subtracts at most its
`dt`). -/
theorem cooldown_timer_lower_bound (dts : List ℚ) :
    ∀ p : PlayableRes, (∀ d ∈ dts, 0 ≤ d) →
      p.cooldown_timer - dts.sum ≤ (dts.foldl PlayableRes.update_cooldown p).cooldown_timer := by
  induction dts with
  | nil => intro p _; simp
  | cons d t ih =>
    intro p h
    have hd : 0 ≤ d := h d (by simp)
    have ht : ∀ x ∈ t, 0 ≤ x := fun x hx => h x (by simp [hx])
    have hrec := ih (p.update_cooldown d) ht
    have hstep : p.cooldown_timer - d ≤ (p.update_cooldown d).cooldown_timer := by
      unfold PlayableRes.update_cooldown
      split
      · simp
      · simp; linarith
    have hsum : (d :: t).sum = d + t.sum := List.sum_cons
    rw [List.foldl_cons]
    rw [hsum]
    linarith

/-- C5: a `Play` of a playable whose cooldown timer is positive is rejected
(the collection and the store are returned unchanged); a successful `Play` of
a playable with `cooldown = C` restarts the timer at `C`; and whenever a
timer that starts at `C` is run down by per-frame `update_cooldown` calls
until `cooling_down` is false — which a second successful `Play` requires —
the elapsed simulated time (the sum of the frame `dt`s) is at least `C`. -/
theorem C5_cooldown_separation :
    (∀ (s : Instances) (id : InstanceId) (inst : Instance) (playables : Playables)
        (all_groups : Groups) (p : PlayableRes),
      playables.playable inst.playable = some p →
      p.cooling_down = true →
      s.run_command (InstanceCommand.Play id inst) playables all_groups = (s, playables)) ∧
    (∀ (s : Instances) (id : InstanceId) (inst : Instance) (playables : Playables)
        (all_groups : Groups) (p : PlayableRes) (C : ℚ),
      playables.playable inst.playable = some p →
      p.cooling_down = false →
      p.cooldown = some C →
      (s.run_command (InstanceCommand.Play id inst) playables all_groups).2.playable
          inst.playable
        = some { p with cooldown_timer := C }) ∧
    (∀ (p : PlayableRes) (C : ℚ) (dts : List ℚ),
      p.cooldown_timer = C →
      (∀ d ∈ dts, 0 ≤ d) →
      (dts.foldl PlayableRes.update_cooldown p).cooling_down = false →
      C ≤ dts.sum) := by
  refine ⟨?_, ?_, ?_⟩
  · intro s id inst playables all_groups p hp hc
    simp only [Instances.run_command]
    cases hpm : playables.playable inst.playable with
    | none => rfl
    | some q =>
      dsimp only
      rw [hpm] at hp
      simp only [Option.some.injEq] at hp
      rw [if_neg (by simp [hp, hc])]
  · intro s id inst playables all_groups p C hp hc hC
    simp only [Instances.run_command, hp]
    rw [if_pos (by simp [hc])]
    have := Playables.playable_modify playables inst.playable PlayableRes.start_cooldown p hp
    simp only [this]
    unfold PlayableRes.start_cooldown
    rw [hC]
  · intro p C dts htimer hpos hfin
    have hbound := cooldown_timer_lower_bound dts p hpos
    have hle : (dts.foldl PlayableRes.update_cooldown p).cooldown_timer ≤ 0 := by
      unfold PlayableRes.cooling_down at hfin
      simpa using of_decide_eq_false hfin
    rw [htimer] at hbound
    linarith

/-- Witness for C5: a cooling-down store rejects a `Play`; a successful
`Play` restarts the 2-second cooldown of `samplePlayableRes`; and a timer of
2 run down to rest over frames of total time 3 certifies `2 ≤ 3`. -/
theorem C5_witness :
    sampleInstances.run_command (InstanceCommand.Play 1 sampleInstance) coolingPlayables
        noGroups
      = (sampleInstances, coolingPlayables) ∧
    (sampleInstances.run_command (InstanceCommand.Play 1 sampleInstance) samplePlayables
        noGroups).2.playable sampleInstance.playable
      = some { samplePlayableRes with cooldown_timer := 2 } ∧
    (2 : ℚ) ≤ [1, 1/2, 1/2, 1].sum :=
  ⟨C5_cooldown_separation.1 sampleInstances 1 sampleInstance coolingPlayables noGroups
      coolingPlayableRes rfl rfl,
    C5_cooldown_separation.2.1 sampleInstances 1 sampleInstance samplePlayables noGroups
      samplePlayableRes 2 rfl rfl rfl,
    C5_cooldown_separation.2.2 { samplePlayableRes with cooldown_timer := 2 } 2
      [1, 1/2, 1/2, 1] rfl (by norm_num)
      (by norm_num [List.foldl_cons, List.foldl_nil, PlayableRes.update_cooldown,
        PlayableRes.cooling_down, samplePlayableRes])⟩

/-- C6: for a ticking metronome, one `update(dt)` sets `previous_time` to the
old time, advances `time` by `(bpm/60) * dt` (with the bpm read from the
freshly resolved cached tempo), and emits interval `i` — for each `i` in
`interval_events_to_emit`, in order — exactly when
`(previous_time % i) > (time % i)` or `previous_time == 0`, so every
configured interval fires on the first update after a fresh start
(`time = 0`). -/
theorem C6_metronome_update (m : Metronome) (dt : ℚ) (parameters : Parameters)
    (h : m.ticking = true) :
    (m.update dt parameters).1.previous_time = m.time ∧
    (m.update dt parameters).1.time
      = m.time + ((m.tempo.update parameters).last_value.bpm / 60) * dt ∧
    (m.update dt parameters).2
      = m.interval_events_to_emit.filter (fun interval =>
          decide (fmod m.time interval
            > fmod (m.time + ((m.tempo.update parameters).last_value.bpm / 60) * dt) interval)
          || (m.time == 0)) ∧
    (m.time = 0 → (m.update dt parameters).2 = m.interval_events_to_emit) := by
  refine ⟨?_, ?_, ?_, ?_⟩
  · simp [Metronome.update, h]
  · simp [Metronome.update, h]
  · unfold Metronome.update
    simp only [h, if_true]
    apply List.filter_congr
    intro i hi
    simp only [Metronome.interval_passed, h, Bool.not_true, Bool.false_eq_true, if_false]
    by_cases hb : m.time = 0
    · simp [hb]
    · have hbf : (m.time == 0) = false := by simpa using hb
      simp [hbf]
  · intro h0
    unfold Metronome.update
    simp only [h, if_true]
    apply List.filter_eq_self.mpr
    intro i hi
    simp [Metronome.interval_passed, h, h0]

/-- Witness for C6 at a freshly started metronome: the first update emits
every configured interval. -/
theorem C6_witness :
    sampleMetronome.ticking = true ∧
    (sampleMetronome.update 1 noParameters).2 = sampleMetronome.interval_events_to_emit :=
  ⟨rfl, (C6_metronome_update sampleMetronome 1 noParameters rfl).2.2.2 rfl⟩

/-- The backward wrap loop exits at or above the loop start. -/
theorem wrapBackward_ge (L D : ℚ) (h : L < D) (p : ℚ) : L ≤ wrapBackward L D p := by
  induction p using wrapBackward.induct L D with
  | case1 x hDL => linarith
  | case2 x hDL hx ih =>
    rw [wrapBackward]
    simp only [dif_neg hDL, dif_pos hx]
    exact ih
  | case3 x hDL hx =>
    rw [wrapBackward]
    simp only [dif_neg hDL, dif_neg hx]
    linarith

/-- The forward wrap loop exits at or below the duration. -/
theorem wrapForward_le (L D : ℚ) (h : L < D) (p : ℚ) : wrapForward L D p ≤ D := by
  induction p using wrapForward.induct L D with
  | case1 x hDL => linarith
  | case2 x hDL hx ih =>
    rw [wrapForward]
    simp only [dif_neg hDL, dif_pos hx]
    exact ih
  | case3 x hDL hx =>
    rw [wrapForward]
    simp only [dif_neg hDL, dif_neg hx]
    linarith

/-- The fade phase of `Instance::update` never moves the position, and it
changes only the states `Pausing` and `Stopping`: after a position phase that
ends in `Playing` or `Stopped`, the full update keeps that state and the
position-phase position. -/
theorem update_after_position_phase (i : Instance) (dt : ℚ) (parameters : Parameters)
    (h : (i.update_position dt parameters).state = InstanceState.Playing
       ∨ (i.update_position dt parameters).state = InstanceState.Stopped) :
    (i.update dt parameters).state = (i.update_position dt parameters).state ∧
    (i.update dt parameters).position = (i.update_position dt parameters).position := by
  unfold Instance.update
  cases hf : (i.update_position dt parameters).fade_volume.update dt with
  | mk q fin =>
    rcases h with h | h <;> cases fin <;> simp [h]

/-- C3: for every playing instance with effective rate
`r = pitch_factor * (reverse ? -1 : 1)`, one `update(dt)` first sets
`position += r * dt` and then: with `r < 0` and a loop start, adds
`duration - loop_start` repeatedly while the position is below the loop start
(ending at or above it, still playing); with `r < 0`, no loop start and the
position below 0, the state becomes `Stopped`; with `r ≥ 0` and a loop
start, subtracts `duration - loop_start` repeatedly while the position is
above the duration (ending at or below it, still playing); with `r ≥ 0`, no
loop start and the position above the duration, the state becomes `Stopped`;
in the remaining in-range cases the instance keeps playing at the advanced
position. -/
theorem C3_position_update (i : Instance) (dt : ℚ) (parameters : Parameters)
    (hstate : i.state = InstanceState.Playing)
    (hloop : ∀ L, i.loop_start = some L → L < i.playable.duration) :
    (i.loop_start = none → effective_rate i parameters < 0 →
      i.position + effective_rate i parameters * dt < 0 →
      (i.update dt parameters).state = InstanceState.Stopped ∧
      (i.update dt parameters).position = i.position + effective_rate i parameters * dt) ∧
    (i.loop_start = none → effective_rate i parameters < 0 →
      ¬(i.position + effective_rate i parameters * dt < 0) →
      (i.update dt parameters).state = InstanceState.Playing ∧
      (i.update dt parameters).position = i.position + effective_rate i parameters * dt) ∧
    (i.loop_start = none → 0 ≤ effective_rate i parameters →
      i.playable.duration < i.position + effective_rate i parameters * dt →
      (i.update dt parameters).state = InstanceState.Stopped ∧
      (i.update dt parameters).position = i.position + effective_rate i parameters * dt) ∧
    (i.loop_start = none → 0 ≤ effective_rate i parameters →
      ¬(i.playable.duration < i.position + effective_rate i parameters * dt) →
      (i.update dt parameters).state = InstanceState.Playing ∧
      (i.update dt parameters).position = i.position + effective_rate i parameters * dt) ∧
    (∀ L, i.loop_start = some L → effective_rate i parameters < 0 →
      (i.update dt parameters).state = InstanceState.Playing ∧
      (i.update dt parameters).position
        = wrapBackward L i.playable.duration
            (i.position + effective_rate i parameters * dt) ∧
      L ≤ (i.update dt parameters).position) ∧
    (∀ L, i.loop_start = some L → 0 ≤ effective_rate i parameters →
      (i.update dt parameters).state = InstanceState.Playing ∧
      (i.update dt parameters).position
        = wrapForward L i.playable.duration
            (i.position + effective_rate i parameters * dt) ∧
      (i.update dt parameters).position ≤ i.playable.duration) := by
  have hplay : i.playing = true := by simp [Instance.playing, hstate]
  have hfold : (if i.reverse
        then (i.pitch.update parameters).last_value.to_factor * (-1)
        else (i.pitch.update parameters).last_value.to_factor)
      = effective_rate i parameters := rfl
  refine ⟨fun hl hr hpos => ?_, fun hl hr hpos => ?_, fun hl hr hpos => ?_,
    fun hl hr hpos => ?_, fun L hL hr => ?_, fun L hL hr => ?_⟩
  · have hup : (i.update_position dt parameters).state = InstanceState.Stopped ∧
        (i.update_position dt parameters).position
          = i.position + effective_rate i parameters * dt := by
      unfold Instance.update_position
      simp only [hplay, if_true]
      rw [hfold, if_pos hr]
      simp only [hl]
      rw [if_pos hpos]
      exact ⟨rfl, rfl⟩
    obtain ⟨hs2, hp2⟩ := update_after_position_phase i dt parameters (Or.inr hup.1)
    exact ⟨by rw [hs2, hup.1], by rw [hp2, hup.2]⟩
  · have hup : (i.update_position dt parameters).state = InstanceState.Playing ∧
        (i.update_position dt parameters).position
          = i.position + effective_rate i parameters * dt := by
      unfold Instance.update_position
      simp only [hplay, if_true]
      rw [hfold, if_pos hr]
      simp only [hl]
      rw [if_neg hpos]
      exact ⟨hstate, rfl⟩
    obtain ⟨hs2, hp2⟩ := update_after_position_phase i dt parameters (Or.inl hup.1)
    exact ⟨by rw [hs2, hup.1], by rw [hp2, hup.2]⟩
  · have hup : (i.update_position dt parameters).state = InstanceState.Stopped ∧
        (i.update_position dt parameters).position
          = i.position + effective_rate i parameters * dt := by
      unfold Instance.update_position
      simp only [hplay, if_true]
      rw [hfold, if_neg (not_lt.mpr hr)]
      simp only [hl]
      rw [if_pos hpos]
      exact ⟨rfl, rfl⟩
    obtain ⟨hs2, hp2⟩ := update_after_position_phase i dt parameters (Or.inr hup.1)
    exact ⟨by rw [hs2, hup.1], by rw [hp2, hup.2]⟩
  · have hup : (i.update_position dt parameters).state = InstanceState.Playing ∧
        (i.update_position dt parameters).position
          = i.position + effective_rate i parameters * dt := by
      unfold Instance.update_position
      simp only [hplay, if_true]
      rw [hfold, if_neg (not_lt.mpr hr)]
      simp only [hl]
      rw [if_neg hpos]
      exact ⟨hstate, rfl⟩
    obtain ⟨hs2, hp2⟩ := update_after_position_phase i dt parameters (Or.inl hup.1)
    exact ⟨by rw [hs2, hup.1], by rw [hp2, hup.2]⟩
  · have hup : (i.update_position dt parameters).state = InstanceState.Playing ∧
        (i.update_position dt parameters).position
          = wrapBackward L i.playable.duration
              (i.position + effective_rate i parameters * dt) := by
      unfold Instance.update_position
      simp only [hplay, if_true]
      rw [hfold, if_pos hr]
      simp only [hL]
      exact ⟨hstate, trivial⟩
    obtain ⟨hs2, hp2⟩ := update_after_position_phase i dt parameters (Or.inl hup.1)
    refine ⟨by rw [hs2, hup.1], by rw [hp2, hup.2], ?_⟩
    rw [hp2, hup.2]
    exact wrapBackward_ge L i.playable.duration (hloop L hL) _
  · have hup : (i.update_position dt parameters).state = InstanceState.Playing ∧
        (i.update_position dt parameters).position
          = wrapForward L i.playable.duration
              (i.position + effective_rate i parameters * dt) := by
      unfold Instance.update_position
      simp only [hplay, if_true]
      rw [hfold, if_neg (not_lt.mpr hr)]
      simp only [hL]
      exact ⟨hstate, trivial⟩
    obtain ⟨hs2, hp2⟩ := update_after_position_phase i dt parameters (Or.inl hup.1)
    refine ⟨by rw [hs2, hup.1], by rw [hp2, hup.2], ?_⟩
    rw [hp2, hup.2]
    exact wrapForward_le L i.playable.duration (hloop L hL) _

/-- Witness for C3 at `sampleInstance` (forward playback, rate 1, no loop,
well within range): one second of update advances the position by the
effective rate and keeps playing. -/
theorem C3_witness :
    sampleInstance.state = InstanceState.Playing ∧
    (sampleInstance.update 1 noParameters).state = InstanceState.Playing ∧
    (sampleInstance.update 1 noParameters).position
      = sampleInstance.position + effective_rate sampleInstance noParameters * 1 := by
  have h :=
    (C3_position_update sampleInstance 1 noParameters rfl
        (by intro L hL; simp [sampleInstance] at hL)).2.2.2.1 rfl
      (by rw [show effective_rate sampleInstance noParameters = 1 from rfl]; norm_num)
      (by
        rw [show effective_rate sampleInstance noParameters = 1 from rfl]
        norm_num [sampleInstance, samplePlayable, sampleSoundId, Playable.duration])
  exact ⟨rfl, h.1, h.2⟩

/-- Counterexample to C2 as stated: the dispatch loop of
`SequenceInstance::update` has no `steps.len()` bound.  For the pathological
one-step sequence `[RunCommand]` with `loop_point = 0`, a single frame
already dispatches 3 steps within a budget of 3 loop iterations (more than
`steps.len() = 1`) without reaching a break: the update does not terminate
on this input, and the number of dispatched commands grows with the budget
instead of being capped at `steps.len()`. -/
theorem C2_counterexample :
    pathologicalSeqInstance.sequence.steps.length = 1 ∧
    SequenceInstance.update 3 pathologicalSeqInstance 1 noMetronomes (fun _ => 0)
      = (none,
         [SequenceOutputCommand.Command 0, SequenceOutputCommand.Command 0,
          SequenceOutputCommand.Command 0], []) :=
  ⟨rfl, rfl⟩

/-- Stepping to an index of a sequence without a loop point keeps the
sequence, re-establishes the readiness invariant, and, if the result is
still `Playing`, the position is the requested index and the instance was
already playing. -/
theorem start_step_cases (s : SequenceInstance) (hlp : s.sequence.loop_point = none)
    (index : ℕ) :
    (s.start_step index).sequence = s.sequence ∧
    (s.start_step index).ready ∧
    ((s.start_step index).state = SequenceInstanceState.Playing →
      (s.start_step index).position = index ∧ s.state = SequenceInstanceState.Playing) := by
  unfold SequenceInstance.start_step
  cases hg : s.sequence.steps.get? index with
  | some step =>
    refine ⟨rfl, ?_, fun h => ⟨rfl, by simpa using h⟩⟩
    intro hpl
    constructor
    · obtain ⟨hlt, _⟩ := List.get?_eq_some.mp hg
      exact hlt
    · intro d hd
      simp only at hd
      rw [hg] at hd
      simp only [Option.some.injEq] at hd
      rw [hd]
      rfl
  | none =>
    rw [hlp]
    refine ⟨rfl, ?_, fun h => ?_⟩
    · intro hpl
      simp [SequenceInstance.set_state] at hpl
    · simp [SequenceInstance.set_state] at h

/-- Termination of the dispatch loop for sequences without a loop point: a
budget of `steps.len() - position + 2` iterations reaches a break.  Each
zero-duration dispatch advances the position by one; a wait breaks the
frame; past the end the sequence finishes and the next iteration breaks. -/
theorem seq_update_loop_terminates (dt : ℚ) (metronome : Option Metronome)
    (draw : ℕ → ℕ) :
    ∀ (fuel : ℕ) (s : SequenceInstance) (out : List SequenceOutputCommand)
      (events : List ℕ),
      s.sequence.loop_point = none →
      s.ready →
      1 ≤ fuel →
      (s.state = SequenceInstanceState.Playing →
        s.sequence.steps.length - s.position + 2 ≤ fuel) →
      (SequenceInstance.update_loop fuel s dt metronome draw out events).1.isSome := by
  intro fuel
  induction fuel with
  | zero => intro s out events _ _ h1 _; omega
  | succ n ih =>
    intro s out events hlp hready h1 hfuel
    cases hst : s.state with
    | Paused => simp [SequenceInstance.update_loop, hst]
    | Finished => simp [SequenceInstance.update_loop, hst]
    | Playing =>
      obtain ⟨hpos, hwait⟩ := hready hst
      have hfuel' := hfuel hst
      obtain ⟨step, hstep⟩ : ∃ step, s.sequence.steps[s.position]? = some step :=
        ⟨s.sequence.steps.get ⟨s.position, hpos⟩, by
          rw [← List.get?_eq_getElem?]; exact List.get?_eq_get hpos⟩
      have hwait' : ∀ d, step = SequenceStep.Wait d → s.wait_timer.isSome := by
        intro d hdd
        apply hwait d
        rw [List.get?_eq_getElem?, hstep, hdd]
      have hnext : ∀ (out' : List SequenceOutputCommand) (events' : List ℕ),
          (SequenceInstance.update_loop n (s.start_step (s.position + 1)) dt metronome draw
            out' events').1.isSome := by
        intro out' events'
        obtain ⟨hseq, hready', hplay'⟩ := start_step_cases s hlp (s.position + 1)
        apply ih _ out' events' (by rw [hseq]; exact hlp) hready'
        · omega
        · intro hpl'
          obtain ⟨hpos', _⟩ := hplay' hpl'
          rw [hseq, hpos']
          omega
      cases step with
      | Wait d =>
        have harm := hwait' d rfl
        obtain ⟨t, ht⟩ := Option.isSome_iff_exists.mp harm
        simp [SequenceInstance.update_loop, hst, hstep, ht]
      | WaitForInterval interval =>
        simp [SequenceInstance.update_loop, hst, hstep]
      | RunCommand command =>
        simp only [SequenceInstance.update_loop, hst, List.get?_eq_getElem?, hstep]
        apply hnext
      | PlayRandom id choices settings =>
        simp only [SequenceInstance.update_loop, hst, List.get?_eq_getElem?, hstep]
        apply hnext
      | EmitCustomEvent event =>
        simp only [SequenceInstance.update_loop, hst, List.get?_eq_getElem?, hstep]
        apply hnext

/-- C2 (amended): the dispatch loop of `SequenceInstance::update` drains all
zero-duration steps in one frame but is not bounded by `steps.len()`: for a
sequence without a loop point (and in a reachable state) the loop reaches a
break within `steps.len() + 2` iterations and the update terminates, while a
pathological all-zero-duration chain with a `loop_point` (the counterexample)
dispatches without bound and the update never terminates. -/
theorem C2_drain_bounded_amended (s : SequenceInstance) (dt : ℚ)
    (metronomes : Metronomes) (draw : ℕ → ℕ)
    (hlp : s.sequence.loop_point = none) (hready : s.ready) :
    (SequenceInstance.update (s.sequence.steps.length + 2) s dt metronomes draw).1.isSome := by
  unfold SequenceInstance.update
  apply seq_update_loop_terminates
  · exact hlp
  · exact hready
  · omega
  · intro _
    omega

/-- Witness for the amended C2 at a concrete one-step sequence without a loop
point: the update terminates within the stated budget. -/
theorem C2_witness :
    sampleSeqInstance.sequence.loop_point = none ∧
    (SequenceInstance.update (sampleSeqInstance.sequence.steps.length + 2) sampleSeqInstance
        1 noMetronomes (fun _ => 0)).1.isSome :=
  ⟨rfl,
    C2_drain_bounded_amended sampleSeqInstance 1 noMetronomes (fun _ => 0) rfl
      (by
        intro _
        refine ⟨by norm_num [sampleSeqInstance], ?_⟩
        intro d hd
        simp [sampleSeqInstance] at hd)⟩

end Kira
